import Mathlib

/-!
Verification development for lobster's `lobsterreader.cpp` (the `parse_data`
value parser).  The parser proper (`ValueParser` with its `Parse`,
`ParseFactor`, `ParseElems`, `ExpectType`, `Expect`, `Gobble` members and the
`ParseData` wrapper) is embedded from the source file.  Its external
collaborators (lexer token stream, VM type registry, heap allocator) are not
part of the source under study and are modelled from the specification's
description of their interfaces.
-/

namespace LobsterReader

/-- Token kinds of the Token Source.  Modelled from the spec: the Token Source
is an external collaborator yielding one lexical token at a time; these are
exactly the kinds `lobsterreader.cpp` dispatches on; names follow `lex.h`'s
`TType` constants used in the source. -/
inductive TType where
  | T_INT
  | T_FLOAT
  | T_STR
  | T_NIL
  | T_MINUS
  | T_LEFTBRACKET
  | T_RIGHTBRACKET
  | T_LEFTCURLY
  | T_RIGHTCURLY
  | T_COMMA
  | T_LINEFEED
  | T_IDENT
  | T_ENDOFFILE
deriving DecidableEq, Repr

/-- One lexical token together with its literal payload.  Modelled from the
spec: the Token Source supplies the current token kind plus literal accessors
(`IntVal`, `sattr`, `StringVal`); the float payload (obtained by `strtod` in
the source) is modelled as a rational number. -/
inductive Token where
  | int (i : Int)
  | float (f : Rat)
  | str (s : String)
  | nilTok
  | minus
  | lbracket
  | rbracket
  | lcurly
  | rcurly
  | comma
  | linefeed
  | ident (s : String)
  | eof
deriving DecidableEq, Repr

/-- Kind of a token. -/
def Token.ttype : Token → TType
  | .int _ => .T_INT
  | .float _ => .T_FLOAT
  | .str _ => .T_STR
  | .nilTok => .T_NIL
  | .minus => .T_MINUS
  | .lbracket => .T_LEFTBRACKET
  | .rbracket => .T_RIGHTBRACKET
  | .lcurly => .T_LEFTCURLY
  | .rcurly => .T_RIGHTCURLY
  | .comma => .T_COMMA
  | .linefeed => .T_LINEFEED
  | .ident _ => .T_IDENT
  | .eof => .T_ENDOFFILE

/-- Human-readable name of a token kind, used by `Expect`'s error message.
Modelled from the spec: the Token Source provides human-readable token names
for error messages; the only name a claim pins down is `end-of-file`. -/
def tokStrT : TType → String
  | .T_INT => "integer literal"
  | .T_FLOAT => "floating point literal"
  | .T_STR => "string literal"
  | .T_NIL => "nil"
  | .T_MINUS => "-"
  | .T_LEFTBRACKET => "["
  | .T_RIGHTBRACKET => "]"
  | .T_LEFTCURLY => "\x7b"
  | .T_RIGHTCURLY => "\x7d"
  | .T_COMMA => ","
  | .T_LINEFEED => "linefeed"
  | .T_IDENT => "identifier"
  | .T_ENDOFFILE => "end-of-file"

/-- Human-readable rendering of the current token (`lex.TokStr()` with no
argument in the source).  Modelled from the spec: tokens with a payload print
their payload. -/
def tokStrCur : Token → String
  | .int i => toString i
  | .str s => s
  | .ident s => s
  | t => tokStrT t.ttype

/-- Runtime value kinds, following `ValueType` from the VM headers as used by
the source (`V_INT`, `V_FLOAT`, `V_STRING`, `V_NIL`, `V_VECTOR`, `V_CLASS`,
the two struct kinds tested via `IsStruct`, and the wildcard `V_ANY`).
Modelled from the spec's closed set of type kinds. -/
inductive ValueType where
  | V_INT
  | V_FLOAT
  | V_STRING
  | V_NIL
  | V_VECTOR
  | V_CLASS
  | V_STRUCT_R
  | V_STRUCT_S
  | V_ANY
deriving DecidableEq, Repr

/-- Modelled from the spec: fixed-arity value aggregates ("structs") are the
two struct kinds. -/
def IsStruct : ValueType → Bool
  | .V_STRUCT_R => true
  | .V_STRUCT_S => true
  | _ => false

/-- Modelled from the spec: user-defined types are classes and structs. -/
def IsUDT (t : ValueType) : Bool :=
  t = .V_CLASS || IsStruct t

/-- Name of a base type used in type-mismatch messages (`BaseTypeName` in the
VM headers).  Modelled from the spec's message template "type `<required>`
required, `<given>` given". -/
def BaseTypeName : ValueType → String
  | .V_INT => "int"
  | .V_FLOAT => "float"
  | .V_STRING => "string"
  | .V_NIL => "nil"
  | .V_VECTOR => "vector"
  | .V_CLASS => "class"
  | .V_STRUCT_R => "struct_ref"
  | .V_STRUCT_S => "struct_scalar"
  | .V_ANY => "any"

/-- A type handle (`type_elem_t` in the source): an index into the VM's type
table. -/
abbrev TypeElem := Nat

/-- The canonical Int type handle (`TYPE_ELEM_INT`).  Modelled from the spec:
the registry reserves fixed handles for the base types. -/
def TYPE_ELEM_INT : TypeElem := 0

/-- The canonical Float type handle (`TYPE_ELEM_FLOAT`). -/
def TYPE_ELEM_FLOAT : TypeElem := 1

/-- The canonical wildcard type handle (`TYPE_ELEM_ANY`). -/
def TYPE_ELEM_ANY : TypeElem := 2

/-- A type descriptor, as the Type Registry reports it.  Modelled from the
spec: kind, element type (vectors), field count and per-slot field types
(aggregates), enum table index (integer-backed enums, `-1` when absent), and
the type's name. -/
structure TypeInfo where
  t : ValueType
  subt : TypeElem := 0
  len : Nat := 0
  elemtypes : List TypeElem := []
  enumidx : Int := -1
  structname : String := ""
deriving DecidableEq, Repr

/-- Per-slot field type with ancestor fallback (`GetElemOrParent` in the VM
headers).  Modelled from the spec: the flattened slot list already contains
inherited slots, so the lookup is a direct slot access; an out-of-range slot
is not specified by the visible behavior and is modelled as the wildcard. -/
def TypeInfo.GetElemOrParent (ti : TypeInfo) (i : Nat) : TypeElem :=
  ti.elemtypes.getD i TYPE_ELEM_ANY

/-- Descriptor used for handles outside the registry's table (never reached on
well-formed inputs). -/
def anyTI : TypeInfo := { t := .V_ANY }

/-- The VM-side Type Registry: the type table and the enum tables.  Modelled
from the spec's collaborator contract (`kind-of`, `element-type`,
`field-type`, `field-count`, `type-name`, `enum-lookup`). -/
structure VMT where
  typeTable : List TypeInfo
  enums : List (List (String × Int)) := []
deriving DecidableEq, Repr

/-- Resolve a type handle (`vm.GetTypeInfo`). -/
def VMT.GetTypeInfo (vm : VMT) (off : TypeElem) : TypeInfo :=
  vm.typeTable.getD off anyTI

/-- Resolve an enum name (`vm.LookupEnum`).  Modelled from the spec:
`enum-lookup(name, enumTableId) → optional int`. -/
def VMT.LookupEnum (vm : VMT) (name : String) (idx : Int) : Option Int :=
  (List.find? (fun p => p.1 == name) (vm.enums.getD idx.toNat [])).map Prod.snd

/-- Name the registry reports for an aggregate type (`vm.StructName`). -/
def VMT.StructName (_vm : VMT) (ti : TypeInfo) : String :=
  ti.structname

/-- A runtime value: the tagged union from the spec's data model.  String and
Object values are references into the heap, identified by an allocation id. -/
inductive Value where
  | vInt (i : Int)
  | vFloat (f : Rat)
  | obj (id : Nat)
  | nilv
deriving DecidableEq, Repr

/-- Contents of a heap-allocated object: a string, a vector (with its logical
length), or a class object. -/
inductive Obj where
  | str (s : String)
  | vec (n : Nat) (typeoff : TypeElem) (elems : List Value)
  | cls (typeoff : TypeElem) (elems : List Value)
deriving DecidableEq, Repr

/-- Parser state: the remaining token stream, the Value Stack (`stack`), the
Allocation Ledger (`allocated`), the heap (association list
id ↦ (object, reference count); Modelled from the spec: the Heap Allocator
creates objects with a single reference owned by the ledger), and the next
fresh allocation id. -/
structure PSt where
  toks : List Token
  stack : List Value
  allocated : List Nat
  heap : List (Nat × Obj × Nat)
  nextId : Nat
deriving DecidableEq, Repr

/-- Result of a parsing step: success, a `ParseError` carrying the state at
the moment the error was raised (`lex.Error` throws, and the catch handler
sees the parser's state at the throw), or fuel exhaustion of the embedding. -/
inductive PRes where
  | ok (s : PSt)
  | err (msg : String) (s : PSt)
  | fuelOut
deriving DecidableEq, Repr

/-- Sequencing of parsing steps: errors and fuel exhaustion short-circuit. -/
def PRes.bind (r : PRes) (f : PSt → PRes) : PRes :=
  match r with
  | .ok s => f s
  | r => r

/-- The current token (`lex.token` / payload accessors); after the end of the
stream the lexer reports end-of-file. -/
def curTok (s : PSt) : Token :=
  s.toks.headD .eof

/-- The current token's kind. -/
def curT (s : PSt) : TType :=
  (curTok s).ttype

/-- Advance the token stream (`lex.Next()`). -/
def advance (s : PSt) : PSt :=
  { s with toks := s.toks.tail }

/-- Push a value onto the Value Stack (`stack.emplace_back`). -/
def pushV (v : Value) (s : PSt) : PSt :=
  { s with stack := s.stack ++ [v] }

/-- Allocate a heap object with reference count 1 and record it in the
Allocation Ledger (the source's `vm.NewString` / `vm.NewObject` / `vm.NewVec`
immediately followed by `allocated.push_back`; nothing observable happens
between creation and recording). -/
def allocRecord (o : Obj) (s : PSt) : Nat × PSt :=
  (s.nextId,
   { s with heap := s.heap ++ [(s.nextId, o, 1)],
            allocated := s.allocated ++ [s.nextId],
            nextId := s.nextId + 1 })

/-- `Expect` from the source: the current token must be `t`, else a
`ParseError`; on success advance past it. -/
def Expect (t : TType) (s : PSt) : PRes :=
  if curT s = t then .ok (advance s)
  else .err (tokStrT t ++ " expected, found: " ++ tokStrCur (curTok s)) s

/-- `Gobble` from the source: advance past `t` only if present. -/
def Gobble (t : TType) (s : PSt) : PSt :=
  if curT s = t then advance s else s

/-- `ExpectType` from the source: the single type-match gate, satisfied
automatically when the needed kind is the wildcard. -/
def ExpectType (given needed : ValueType) (s : PSt) : PRes :=
  if given ≠ needed ∧ needed ≠ .V_ANY then
    .err ("type " ++ BaseTypeName needed ++ " required, " ++
          BaseTypeName given ++ " given") s
  else .ok s

/-- In-place negation of the stack's top for the unary-minus case
(`stack.back().setival(stack.back().ival() * -1)`); applied to the last
element of the stack. -/
def mapLast (f : Value → Value) : List Value → List Value
  | [] => []
  | [v] => [f v]
  | v :: rest => v :: mapLast f rest

/-- `setival` negation: negate an Int value in place (other payloads are
untouched; the source's union reinterpretation is unreachable there because
the inner parse against `TYPE_ELEM_INT` only pushes Int values). -/
def setivalNeg : Value → Value
  | .vInt i => .vInt (i * -1)
  | v => v

/-- `setfval` negation, likewise for Float values. -/
def setfvalNeg : Value → Value
  | .vFloat f => .vFloat (f * -1)
  | v => v

/-- The default-padding loop of `ParseElems` (source lines 66–75): while fewer
than `numelems` elements sit above `ss`, push a kind-appropriate default for
the missing slot's declared type, or fail.  The extra structural fuel makes
the embedding total; `numelems + 1` steps always suffice because every
iteration pushes exactly one value. -/
def PadMissing (vm : VMT) (ti : TypeInfo) (numelems : Nat) (ss : Nat) :
    Nat → PSt → PRes
  | 0, _ => .fuelOut
  | k + 1, s =>
    if s.stack.length - ss < numelems then
      match (vm.GetTypeInfo (ti.elemtypes.getD (s.stack.length - ss) TYPE_ELEM_ANY)).t with
      | .V_INT => PadMissing vm ti numelems ss k (pushV (.vInt 0) s)
      | .V_FLOAT => PadMissing vm ti numelems ss k (pushV (.vFloat 0) s)
      | .V_NIL => PadMissing vm ti numelems ss k (pushV .nilv s)
      | _ => .err "no default value exists for missing struct elements" s
    else .ok s

/-- Class commit of `ParseElems` (source lines 76–82): allocate an object of
the final element count, move the trailing run of stack values into it, pop
them, record in the ledger, push the object reference. -/
def CommitClass (typeoff : TypeElem) (ss : Nat) (s : PSt) : PSt :=
  let elems := s.stack.drop ss
  let r := allocRecord (.cls typeoff elems) s
  { r.2 with stack := s.stack.take ss ++ [.obj r.1] }

/-- Vector commit of `ParseElems` (source lines 83–92): element width is the
element type's fixed-record length when it is a struct kind, else 1; logical
length is the scalar count divided by the width; the object is initialized
from the trailing scalar run. -/
def CommitVec (vm : VMT) (typeoff : TypeElem) (ti : TypeInfo) (ss : Nat)
    (s : PSt) : PSt :=
  let sti := vm.GetTypeInfo ti.subt
  let width := if IsStruct sti.t then sti.len else 1
  let len := s.stack.length - ss
  let n := len / width
  let elems := (s.stack.drop ss).take (n * width)
  let r := allocRecord (.vec n typeoff elems) s
  { r.2 with stack := s.stack.take ss ++ [.obj r.1] }

mutual

/-- `ParseFactor` from the source (lines 107–184): the central recursive
production, dispatching on the current token and the kind of `typeoff`.  The
first argument after the registry is structural fuel (the source recursion is
bounded by the token stream; the embedding makes that explicit). -/
def ParseFactor (vm : VMT) : Nat → TypeElem → Bool → PSt → PRes
  | 0, _, _, _ => .fuelOut
  | fuel + 1, typeoff, push, s =>
    let ti := vm.GetTypeInfo typeoff
    let vt := ti.t
    match curTok s with
    | .int i =>
      (ExpectType .V_INT vt s).bind fun s =>
        let s := advance s
        .ok (if push then pushV (.vInt i) s else s)
    | .float f =>
      (ExpectType .V_FLOAT vt s).bind fun s =>
        let s := advance s
        .ok (if push then pushV (.vFloat f) s else s)
    | .str strv =>
      (ExpectType .V_STRING vt s).bind fun s =>
        let s := advance s
        if push then
          let r := allocRecord (.str strv) s
          .ok (pushV (.obj r.1) r.2)
        else .ok s
    | .nilTok =>
      (ExpectType .V_NIL vt s).bind fun s =>
        let s := advance s
        .ok (if push then pushV .nilv s else s)
    | .minus =>
      let s := advance s
      (ParseFactor vm fuel typeoff push s).bind fun s =>
        if push then
          if typeoff = TYPE_ELEM_INT then
            .ok { s with stack := mapLast setivalNeg s.stack }
          else if typeoff = TYPE_ELEM_FLOAT then
            .ok { s with stack := mapLast setfvalNeg s.stack }
          else
            .err "unary minus: numeric value expected" s
        else .ok s
    | .lbracket =>
      (ExpectType .V_VECTOR vt s).bind fun s =>
        let s := advance s
        ParseElems vm fuel .T_RIGHTBRACKET typeoff (-1) push s
    | .ident name =>
      if ti.t = .V_INT ∧ ti.enumidx ≥ 0 then
        match vm.LookupEnum name ti.enumidx with
        | none => .err ("unknown enum value " ++ name) s
        | some v =>
          let s := advance s
          .ok (if push then pushV (.vInt v) s else s)
      else if IsUDT vt = false ∧ vt ≠ .V_ANY then
        .err ("class/struct type required, " ++ BaseTypeName vt ++ " given") s
      else
        let sname := name
        let s := advance s
        (Expect .T_LEFTCURLY s).bind fun s =>
          let nm := vm.StructName ti
          if nm ≠ sname then
            .err ("class/struct type " ++ nm ++ " required, " ++ sname ++ " given") s
          else
            ParseElems vm fuel .T_RIGHTCURLY typeoff (ti.len : Int) push s
    | _ =>
      .err ("illegal start of expression: " ++ tokStrCur (curTok s)) s

/-- `ParseElems` from the source (lines 44–95): optional leading line break,
then either the immediate terminator or the element loop; afterwards, only
when `push` is set: default padding for fixed-arity aggregates, then the
class/vector commit (struct kinds commit nothing). -/
def ParseElems (vm : VMT) :
    Nat → TType → TypeElem → Int → Bool → PSt → PRes
  | 0, _, _, _, _, _ => .fuelOut
  | fuel + 1, endt, typeoff, numelems, push, s =>
    let s := Gobble .T_LINEFEED s
    let ti := vm.GetTypeInfo typeoff
    let ss := s.stack.length
    (if curT s = endt then (.ok (advance s) : PRes)
     else ParseElemsLoop vm fuel endt numelems push ti ss s).bind fun s =>
      if push = false then .ok s
      else
        (if numelems ≥ 0 then
          PadMissing vm ti numelems.toNat ss (numelems.toNat + 1) s
         else (.ok s : PRes)).bind fun s =>
          if ti.t = .V_CLASS then .ok (CommitClass typeoff ss s)
          else if ti.t = .V_VECTOR then .ok (CommitVec vm typeoff ti ss s)
          else .ok s

/-- The element loop of `ParseElems` (source lines 51–63), one iteration per
element: once the element count has reached `numelems` the element is parsed
against the wildcard type with `push` off (truncation); otherwise against the
vector element type or the per-slot field type; then the separator rule (a
line break may substitute for a comma) and the terminator check. -/
def ParseElemsLoop (vm : VMT) :
    Nat → TType → Int → Bool → TypeInfo → Nat → PSt → PRes
  | 0, _, _, _, _, _, _ => .fuelOut
  | fuel + 1, endt, numelems, push, ti, ss, s =>
    (if ((s.stack.length - ss : Nat) : Int) = numelems then
      ParseFactor vm fuel TYPE_ELEM_ANY false s
     else
      let eti := if ti.t = .V_VECTOR then ti.subt
                 else ti.GetElemOrParent (s.stack.length - ss)
      ParseFactor vm fuel eti push s).bind fun s =>
      let haslf : Bool := curT s == .T_LINEFEED
      let s := if haslf then advance s else s
      if curT s = endt then .ok (advance s)
      else
        (if haslf then (.ok s : PRes) else Expect .T_COMMA s).bind fun s =>
          ParseElemsLoop vm fuel endt numelems push ti ss s

end

/-- `Parse` from the source (lines 35–41): one factor against the expected
type, an optional single trailing line break, then end-of-input.  The final
state is returned whole so that the stack-size assertion can be inspected. -/
def Parse (vm : VMT) (fuel : Nat) (typeoff : TypeElem) (s : PSt) : PRes :=
  (ParseFactor vm fuel typeoff true s).bind fun s =>
    let s := Gobble .T_LINEFEED s
    Expect .T_ENDOFFILE s

/-- Fresh parser state for a top-level call (the Value Stack, ledger and heap
start empty). -/
def initSt (toks : List Token) : PSt :=
  ⟨toks, [], [], [], 0⟩

/-- One reference-count decrement (`a->Dec(vm)` for one ledger entry). -/
def decOne (heap : List (Nat × Obj × Nat)) (id : Nat) :
    List (Nat × Obj × Nat) :=
  heap.map fun e => if e.1 = id then (e.1, e.2.1, e.2.2 - 1) else e

/-- The rollback of `ParseData`'s catch handler: decrement every object
recorded in the Allocation Ledger. -/
def releaseAll (heap : List (Nat × Obj × Nat)) (as : List Nat) :
    List (Nat × Obj × Nat) :=
  as.foldl decOne heap

/-- Outcome of a top-level `ParseData` call: the parsed value (the single
value left on the Value Stack) with the final state, or the error message with
the heap after the ledger rollback, or fuel exhaustion of the embedding. -/
inductive PDOut where
  | success (v : Value) (s : PSt)
  | failure (msg : String) (heapAfter : List (Nat × Obj × Nat))
  | nofuel
deriving DecidableEq, Repr

/-- `ParseData` from the source (lines 197–213): run `Parse`; on success
return the value pushed from the top of the stack; on a caught error,
decrement every object in the Allocation Ledger and return the message. -/
def ParseData (vm : VMT) (fuel : Nat) (typeoff : TypeElem)
    (toks : List Token) : PDOut :=
  match Parse vm fuel typeoff (initSt toks) with
  | .ok s => .success (s.stack.getLastD .nilv) s
  | .err m s => .failure m (releaseAll s.heap s.allocated)
  | .fuelOut => .nofuel


/-! ### A concrete Type Registry used for the concrete runs below -/

/-- A representative registry: the canonical base-type handles 0–4, a
vector-of-int type (5), a two-int-field class `Point` (6), a class `Q` whose
second field is a string (7), an integer-backed enum (8), a two-int-field
fixed struct named `Point` (9), a vector of that struct (10), a vector of
strings (11), and a class `R` with int, float and nil fields (12). -/
def vmC : VMT :=
  { typeTable :=
      [ { t := .V_INT },
        { t := .V_FLOAT },
        { t := .V_ANY },
        { t := .V_STRING },
        { t := .V_NIL },
        { t := .V_VECTOR, subt := 0 },
        { t := .V_CLASS, len := 2, elemtypes := [0, 0], structname := "Point" },
        { t := .V_CLASS, len := 2, elemtypes := [0, 3], structname := "Q" },
        { t := .V_INT, enumidx := 0 },
        { t := .V_STRUCT_S, len := 2, elemtypes := [0, 0], structname := "Point" },
        { t := .V_VECTOR, subt := 9 },
        { t := .V_VECTOR, subt := 3 },
        { t := .V_CLASS, len := 3, elemtypes := [0, 1, 4], structname := "R" } ],
    enums := [[("RED", 0), ("GREEN", 1)]] }

/-- Well-formedness of a registry: the canonical base-type handles resolve to
the corresponding base descriptors (as the VM guarantees for its reserved
`type_elem_t` constants). -/
def WFVM (vm : VMT) : Prop :=
  vm.GetTypeInfo TYPE_ELEM_INT = { t := .V_INT } ∧
  vm.GetTypeInfo TYPE_ELEM_FLOAT = { t := .V_FLOAT } ∧
  vm.GetTypeInfo TYPE_ELEM_ANY = { t := .V_ANY }

theorem vmC_wf : WFVM vmC := ⟨rfl, rfl, rfl⟩

/-! ### The separator/terminator continuation of the element loop -/

/-- The part of one `ParseElemsLoop` iteration that follows the element parse:
the separator rule (a line break may substitute for a comma), the terminator
check, and the next iteration. -/
def loopCont (vm : VMT) (fuel : Nat) (endt : TType) (nel : Int) (push : Bool)
    (ti : TypeInfo) (ss : Nat) (s : PSt) : PRes :=
  let haslf : Bool := curT s == .T_LINEFEED
  let s := if haslf then advance s else s
  if curT s = endt then .ok (advance s)
  else
    (if haslf then (.ok s : PRes) else Expect .T_COMMA s).bind fun s =>
      ParseElemsLoop vm fuel endt nel push ti ss s

/-- One unfolding of the element loop: the element parse (wildcard discard
when the count has reached the declared arity, the typed parse otherwise)
followed by the separator continuation. -/
theorem ParseElemsLoop_succ (vm : VMT) (fuel : Nat) (endt : TType) (nel : Int)
    (push : Bool) (ti : TypeInfo) (ss : Nat) (s : PSt) :
    ParseElemsLoop vm (fuel + 1) endt nel push ti ss s =
      (if ((s.stack.length - ss : Nat) : Int) = nel then
        ParseFactor vm fuel TYPE_ELEM_ANY false s
       else
        let eti := if ti.t = .V_VECTOR then ti.subt
                   else ti.GetElemOrParent (s.stack.length - ss)
        ParseFactor vm fuel eti push s).bind
        (loopCont vm fuel endt nel push ti ss) := rfl

/-! ### Field-projection lemmas for the state transformers -/

@[simp] theorem advance_stack (s : PSt) : (advance s).stack = s.stack := rfl
@[simp] theorem advance_allocated (s : PSt) : (advance s).allocated = s.allocated := rfl
@[simp] theorem advance_heap (s : PSt) : (advance s).heap = s.heap := rfl
@[simp] theorem advance_nextId (s : PSt) : (advance s).nextId = s.nextId := rfl

@[simp] theorem Gobble_stack (t : TType) (s : PSt) : (Gobble t s).stack = s.stack := by
  unfold Gobble; split <;> rfl
@[simp] theorem Gobble_allocated (t : TType) (s : PSt) : (Gobble t s).allocated = s.allocated := by
  unfold Gobble; split <;> rfl
@[simp] theorem Gobble_heap (t : TType) (s : PSt) : (Gobble t s).heap = s.heap := by
  unfold Gobble; split <;> rfl
@[simp] theorem Gobble_nextId (t : TType) (s : PSt) : (Gobble t s).nextId = s.nextId := by
  unfold Gobble; split <;> rfl

@[simp] theorem pushV_stack (v : Value) (s : PSt) : (pushV v s).stack = s.stack ++ [v] := rfl
@[simp] theorem pushV_allocated (v : Value) (s : PSt) : (pushV v s).allocated = s.allocated := rfl
@[simp] theorem pushV_heap (v : Value) (s : PSt) : (pushV v s).heap = s.heap := rfl
@[simp] theorem pushV_nextId (v : Value) (s : PSt) : (pushV v s).nextId = s.nextId := rfl

@[simp] theorem allocRecord_fst (o : Obj) (s : PSt) : (allocRecord o s).1 = s.nextId := rfl
@[simp] theorem allocRecord_stack (o : Obj) (s : PSt) : (allocRecord o s).2.stack = s.stack := rfl
@[simp] theorem allocRecord_allocated (o : Obj) (s : PSt) :
    (allocRecord o s).2.allocated = s.allocated ++ [s.nextId] := rfl
@[simp] theorem allocRecord_heap (o : Obj) (s : PSt) :
    (allocRecord o s).2.heap = s.heap ++ [(s.nextId, o, 1)] := rfl
@[simp] theorem allocRecord_nextId (o : Obj) (s : PSt) :
    (allocRecord o s).2.nextId = s.nextId + 1 := rfl

@[simp] theorem CommitClass_stack (ty : TypeElem) (ss : Nat) (s : PSt) :
    (CommitClass ty ss s).stack = s.stack.take ss ++ [.obj s.nextId] := rfl
@[simp] theorem CommitClass_allocated (ty : TypeElem) (ss : Nat) (s : PSt) :
    (CommitClass ty ss s).allocated = s.allocated ++ [s.nextId] := rfl
@[simp] theorem CommitClass_heap (ty : TypeElem) (ss : Nat) (s : PSt) :
    (CommitClass ty ss s).heap = s.heap ++ [(s.nextId, .cls ty (s.stack.drop ss), 1)] := rfl
@[simp] theorem CommitClass_nextId (ty : TypeElem) (ss : Nat) (s : PSt) :
    (CommitClass ty ss s).nextId = s.nextId + 1 := rfl

@[simp] theorem CommitVec_stack (vm : VMT) (ty : TypeElem) (ti : TypeInfo) (ss : Nat) (s : PSt) :
    (CommitVec vm ty ti ss s).stack = s.stack.take ss ++ [.obj s.nextId] := rfl
@[simp] theorem CommitVec_allocated (vm : VMT) (ty : TypeElem) (ti : TypeInfo) (ss : Nat) (s : PSt) :
    (CommitVec vm ty ti ss s).allocated = s.allocated ++ [s.nextId] := rfl
@[simp] theorem CommitVec_nextId (vm : VMT) (ty : TypeElem) (ti : TypeInfo) (ss : Nat) (s : PSt) :
    (CommitVec vm ty ti ss s).nextId = s.nextId + 1 := rfl

theorem CommitVec_heap (vm : VMT) (ty : TypeElem) (ti : TypeInfo) (ss : Nat) (s : PSt) :
    (CommitVec vm ty ti ss s).heap =
      s.heap ++ [(s.nextId,
        .vec ((s.stack.length - ss) /
                (if IsStruct (vm.GetTypeInfo ti.subt).t then (vm.GetTypeInfo ti.subt).len else 1))
          ty
          ((s.stack.drop ss).take
            (((s.stack.length - ss) /
                (if IsStruct (vm.GetTypeInfo ti.subt).t then (vm.GetTypeInfo ti.subt).len else 1)) *
              (if IsStruct (vm.GetTypeInfo ti.subt).t then (vm.GetTypeInfo ti.subt).len else 1))),
        1)] := rfl

/-! ### Frame property of no-push parsing -/

/-- The non-lexer components of two states agree (the second is the first
with at most the token stream advanced). -/
def sameCore (s s1 : PSt) : Prop :=
  s1.stack = s.stack ∧ s1.allocated = s.allocated ∧ s1.heap = s.heap ∧ s1.nextId = s.nextId

/-- A parsing step is state-neutral: if it succeeds, the Value Stack, the
Allocation Ledger, the heap and the id supply are untouched. -/
def frameRes (s : PSt) : PRes → Prop
  | .ok s' => sameCore s s'
  | .err _ _ => True
  | .fuelOut => True

theorem sameCore_refl (s : PSt) : sameCore s s := ⟨rfl, rfl, rfl, rfl⟩

theorem sameCore_trans {s s1 s2 : PSt} (h1 : sameCore s s1) (h2 : sameCore s1 s2) :
    sameCore s s2 :=
  ⟨h2.1.trans h1.1, h2.2.1.trans h1.2.1, h2.2.2.1.trans h1.2.2.1, h2.2.2.2.trans h1.2.2.2⟩

theorem sameCore_advance (s : PSt) : sameCore s (advance s) := ⟨rfl, rfl, rfl, rfl⟩

theorem sameCore_Gobble (t : TType) (s : PSt) : sameCore s (Gobble t s) := by
  simp [sameCore]

theorem frameRes_pre {s s1 : PSt} {r : PRes} (h : sameCore s s1) (hr : frameRes s1 r) :
    frameRes s r := by
  cases r with
  | ok s2 => exact sameCore_trans h hr
  | err m s2 => trivial
  | fuelOut => trivial

theorem frameRes_bind {s : PSt} {r : PRes} {f : PSt → PRes}
    (h1 : frameRes s r) (h2 : ∀ s1, frameRes s1 (f s1)) :
    frameRes s (r.bind f) := by
  cases r with
  | ok s1 => exact frameRes_pre h1 (h2 s1)
  | err m s1 => trivial
  | fuelOut => trivial

theorem frame_Expect (t : TType) (s : PSt) : frameRes s (Expect t s) := by
  unfold Expect
  split
  · exact sameCore_advance s
  · trivial

theorem frame_ExpectType (g n : ValueType) (s : PSt) : frameRes s (ExpectType g n s) := by
  unfold ExpectType
  split
  · trivial
  · exact sameCore_refl s


theorem frame_master : ∀ fuel : Nat,
    (∀ (vm : VMT) (ty : TypeElem) (s : PSt), frameRes s (ParseFactor vm fuel ty false s)) ∧
    (∀ (vm : VMT) (endt : TType) (ty : TypeElem) (nel : Int) (s : PSt),
      frameRes s (ParseElems vm fuel endt ty nel false s)) ∧
    (∀ (vm : VMT) (endt : TType) (nel : Int) (ti : TypeInfo) (ss : Nat) (s : PSt),
      frameRes s (ParseElemsLoop vm fuel endt nel false ti ss s)) := by
  intro fuel
  induction fuel with
  | zero =>
    refine ⟨fun _ _ _ => trivial, fun _ _ _ _ _ => trivial, fun _ _ _ _ _ _ => trivial⟩
  | succ fuel ih =>
    obtain ⟨ihF, ihE, ihL⟩ := ih
    refine ⟨?_, ?_, ?_⟩
    · -- ParseFactor
      intro vm ty s
      simp only [ParseFactor]
      cases htk : curTok s with
      | int i =>
        refine frameRes_bind (frame_ExpectType ..) fun s1 => ?_
        simp [frameRes, sameCore]
      | float f =>
        refine frameRes_bind (frame_ExpectType ..) fun s1 => ?_
        simp [frameRes, sameCore]
      | str strv =>
        refine frameRes_bind (frame_ExpectType ..) fun s1 => ?_
        simp [frameRes, sameCore]
      | nilTok =>
        refine frameRes_bind (frame_ExpectType ..) fun s1 => ?_
        simp [frameRes, sameCore]
      | minus =>
        refine frameRes_pre (sameCore_advance s) (frameRes_bind (ihF ..) fun s1 => ?_)
        simp [frameRes, sameCore]
      | lbracket =>
        refine frameRes_bind (frame_ExpectType ..) fun s1 => ?_
        exact frameRes_pre (sameCore_advance s1) (ihE ..)
      | ident name =>
        dsimp only
        split
        · cases hlk : vm.LookupEnum name (vm.GetTypeInfo ty).enumidx with
          | none => trivial
          | some v => simp [frameRes, sameCore]
        · split
          · trivial
          · refine frameRes_pre (sameCore_advance s)
              (frameRes_bind (frame_Expect ..) fun s1 => ?_)
            split
            · trivial
            · exact ihE ..
      | eof => trivial
      | lcurly => trivial
      | rcurly => trivial
      | rbracket => trivial
      | comma => trivial
      | linefeed => trivial
    · -- ParseElems
      intro vm endt ty nel s
      simp only [ParseElems]
      refine frameRes_pre (sameCore_Gobble .T_LINEFEED s) (frameRes_bind ?_ fun s1 => ?_)
      · split
        · exact sameCore_advance _
        · exact ihL ..
      · simp [frameRes, sameCore]
    · -- ParseElemsLoop
      intro vm endt nel ti ss s
      simp only [ParseElemsLoop]
      refine frameRes_bind ?_ fun s1 => ?_
      · split
        · exact ihF ..
        · exact ihF ..
      · dsimp only
        cases hlf : curT s1 == .T_LINEFEED with
        | true =>
          simp only [hlf, if_true]
          split
          · exact frameRes_pre (sameCore_advance s1) (sameCore_advance _)
          · refine frameRes_pre (sameCore_advance s1) (frameRes_bind ?_ fun s2 => ihL ..)
            exact sameCore_refl _
        | false =>
          simp only [hlf, Bool.false_eq_true, if_false]
          split
          · exact sameCore_advance s1
          · exact frameRes_bind (frame_Expect ..) fun s2 => ihL ..


/-! ### The allocation-tracking invariant -/

/-- The tracking invariant: every heap entry carries reference count 1 and its
id is recorded in the Allocation Ledger, and every Object value on the Value
Stack is recorded in the Allocation Ledger. -/
def Inv (s : PSt) : Prop :=
  (∀ e ∈ s.heap, e.2.2 = 1 ∧ e.1 ∈ s.allocated) ∧
  (∀ id : Nat, Value.obj id ∈ s.stack → id ∈ s.allocated)

/-- A parsing step preserves the tracking invariant, into success and error
states alike, and only ever appends to the Allocation Ledger. -/
def presInv (s : PSt) : PRes → Prop
  | .ok s' => Inv s' ∧ s.allocated ⊆ s'.allocated
  | .err _ s' => Inv s' ∧ s.allocated ⊆ s'.allocated
  | .fuelOut => True

theorem Inv_initSt (toks : List Token) : Inv (initSt toks) := by
  constructor <;> simp [initSt]

theorem Inv_of_sameCore {s s1 : PSt} (h : sameCore s s1) (hi : Inv s) : Inv s1 := by
  refine ⟨?_, ?_⟩
  · simp only [h.2.2.1, h.2.1]
    exact hi.1
  · simp only [h.1, h.2.1]
    exact hi.2

theorem presInv_weaken {s s1 : PSt} {r : PRes} (hsub : s.allocated ⊆ s1.allocated)
    (h : presInv s1 r) : presInv s r := by
  cases r with
  | ok s2 => exact ⟨h.1, hsub.trans h.2⟩
  | err m s2 => exact ⟨h.1, hsub.trans h.2⟩
  | fuelOut => trivial

theorem presInv_pre {s s1 : PSt} {r : PRes} (h : sameCore s s1) (hr : presInv s1 r) :
    presInv s r :=
  presInv_weaken (by rw [h.2.1]; exact List.Subset.refl _) hr

theorem presInv_bind {s : PSt} {r : PRes} {f : PSt → PRes}
    (h1 : presInv s r) (h2 : ∀ s1, Inv s1 → presInv s1 (f s1)) :
    presInv s (r.bind f) := by
  cases r with
  | ok s1 => exact presInv_weaken h1.2 (h2 s1 h1.1)
  | err m s1 => exact h1
  | fuelOut => trivial

theorem presInv_ok_sameCore {s1 s2 : PSt} (h : sameCore s1 s2) (hi : Inv s1) :
    presInv s1 (.ok s2) :=
  ⟨Inv_of_sameCore h hi, by rw [h.2.1]; exact List.Subset.refl _⟩

theorem presInv_ExpectType (g n : ValueType) (s : PSt) (hi : Inv s) :
    presInv s (ExpectType g n s) := by
  unfold ExpectType
  split
  · exact ⟨hi, List.Subset.refl _⟩
  · exact ⟨hi, List.Subset.refl _⟩

theorem presInv_Expect (t : TType) (s : PSt) (hi : Inv s) :
    presInv s (Expect t s) := by
  unfold Expect
  split
  · exact ⟨hi, List.Subset.refl _⟩
  · exact ⟨hi, List.Subset.refl _⟩

theorem Inv_pushV {s : PSt} {v : Value} (hi : Inv s)
    (hv : ∀ id : Nat, v = Value.obj id → id ∈ s.allocated) :
    Inv (pushV v s) := by
  refine ⟨hi.1, ?_⟩
  intro id hmem
  simp only [pushV_stack, List.mem_append, List.mem_singleton] at hmem
  rcases hmem with hmem | hmem
  · exact hi.2 id hmem
  · exact hv id hmem.symm

theorem presInv_alloc_push {s : PSt} (o : Obj) (hi : Inv s) :
    presInv s (.ok (pushV (.obj (allocRecord o s).1) (allocRecord o s).2)) := by
  refine ⟨⟨?_, ?_⟩, ?_⟩
  · intro e he
    simp only [pushV_heap, allocRecord_heap, List.mem_append, List.mem_singleton] at he
    rcases he with he | he
    · refine ⟨(hi.1 e he).1, ?_⟩
      simp only [pushV_allocated, allocRecord_allocated, List.mem_append]
      exact Or.inl (hi.1 e he).2
    · subst he
      refine ⟨rfl, ?_⟩
      simp
  · intro id hmem
    simp only [pushV_stack, allocRecord_stack, allocRecord_fst,
      List.mem_append, List.mem_singleton] at hmem
    simp only [pushV_allocated, allocRecord_allocated, List.mem_append, List.mem_singleton]
    rcases hmem with hmem | hmem
    · exact Or.inl (hi.2 id hmem)
    · cases hmem
      exact Or.inr rfl
  · intro a ha
    simp only [pushV_allocated, allocRecord_allocated, List.mem_append]
    exact Or.inl ha

theorem mem_mapLast {f : Value → Value} : ∀ {l : List Value} {v : Value},
    v ∈ mapLast f l → ∃ w ∈ l, v = w ∨ v = f w := by
  intro l
  induction l with
  | nil => intro v h; cases h
  | cons a l ih =>
    intro v h
    cases l with
    | nil =>
      simp only [mapLast, List.mem_singleton] at h
      exact ⟨a, List.mem_singleton_self a, Or.inr h⟩
    | cons b l2 =>
      simp only [mapLast, List.mem_cons] at h
      rcases h with h | h
      · exact ⟨a, List.mem_cons_self a _, Or.inl h⟩
      · obtain ⟨w, hw, hv⟩ := ih h
        exact ⟨w, List.mem_cons_of_mem a hw, hv⟩

theorem Inv_mapLast {s : PSt} {f : Value → Value}
    (hf : ∀ (w : Value) (id : Nat), f w = .obj id → w = .obj id)
    (hi : Inv s) : Inv { s with stack := mapLast f s.stack } := by
  refine ⟨hi.1, ?_⟩
  intro id hmem
  obtain ⟨w, hw, hv⟩ := mem_mapLast hmem
  rcases hv with hv | hv
  · exact hi.2 id (hv ▸ hw)
  · have := hf w id hv.symm
    subst this
    exact hi.2 id hw

theorem setivalNeg_obj (w : Value) (id : Nat) (h : setivalNeg w = .obj id) : w = .obj id := by
  cases w <;> simp_all [setivalNeg]

theorem setfvalNeg_obj (w : Value) (id : Nat) (h : setfvalNeg w = .obj id) : w = .obj id := by
  cases w <;> simp_all [setfvalNeg]

theorem presInv_CommitClass {s : PSt} (ty : TypeElem) (ss : Nat) (hi : Inv s) :
    presInv s (.ok (CommitClass ty ss s)) := by
  refine ⟨⟨?_, ?_⟩, ?_⟩
  · intro e he
    simp only [CommitClass_heap, List.mem_append, List.mem_singleton] at he
    rcases he with he | he
    · refine ⟨(hi.1 e he).1, ?_⟩
      simp only [CommitClass_allocated, List.mem_append]
      exact Or.inl (hi.1 e he).2
    · subst he
      refine ⟨rfl, ?_⟩
      simp
  · intro id hmem
    simp only [CommitClass_stack, List.mem_append, List.mem_singleton] at hmem
    simp only [CommitClass_allocated, List.mem_append, List.mem_singleton]
    rcases hmem with hmem | hmem
    · exact Or.inl (hi.2 id (List.take_subset ss s.stack hmem))
    · cases hmem
      exact Or.inr rfl
  · intro a ha
    simp only [CommitClass_allocated, List.mem_append]
    exact Or.inl ha

theorem presInv_CommitVec {s : PSt} (vm : VMT) (ty : TypeElem) (ti : TypeInfo)
    (ss : Nat) (hi : Inv s) :
    presInv s (.ok (CommitVec vm ty ti ss s)) := by
  refine ⟨⟨?_, ?_⟩, ?_⟩
  · intro e he
    rw [CommitVec_heap] at he
    simp only [List.mem_append, List.mem_singleton] at he
    rcases he with he | he
    · refine ⟨(hi.1 e he).1, ?_⟩
      simp only [CommitVec_allocated, List.mem_append]
      exact Or.inl (hi.1 e he).2
    · subst he
      refine ⟨rfl, ?_⟩
      simp
  · intro id hmem
    simp only [CommitVec_stack, List.mem_append, List.mem_singleton] at hmem
    simp only [CommitVec_allocated, List.mem_append, List.mem_singleton]
    rcases hmem with hmem | hmem
    · exact Or.inl (hi.2 id (List.take_subset ss s.stack hmem))
    · cases hmem
      exact Or.inr rfl
  · intro a ha
    simp only [CommitVec_allocated, List.mem_append]
    exact Or.inl ha

theorem presInv_PadMissing (vm : VMT) (ti : TypeInfo) (n ss : Nat) :
    ∀ (k : Nat) (s : PSt), Inv s → presInv s (PadMissing vm ti n ss k s) := by
  intro k
  induction k with
  | zero => intro s hi; trivial
  | succ k ih =>
    intro s hi
    simp only [PadMissing]
    split
    · cases hkind : (vm.GetTypeInfo (ti.elemtypes.getD (s.stack.length - ss) TYPE_ELEM_ANY)).t
      case V_INT =>
        exact presInv_weaken (List.Subset.refl _)
          (ih (pushV (.vInt 0) s) (Inv_pushV hi (fun id h => Value.noConfusion h)))
      case V_FLOAT =>
        exact presInv_weaken (List.Subset.refl _)
          (ih (pushV (.vFloat 0) s) (Inv_pushV hi (fun id h => Value.noConfusion h)))
      case V_NIL =>
        exact presInv_weaken (List.Subset.refl _)
          (ih (pushV .nilv s) (Inv_pushV hi (fun id h => Value.noConfusion h)))
      all_goals exact ⟨hi, List.Subset.refl _⟩
    · exact ⟨hi, List.Subset.refl _⟩


theorem inv_master : ∀ fuel : Nat,
    (∀ (vm : VMT) (ty : TypeElem) (push : Bool) (s : PSt), Inv s →
      presInv s (ParseFactor vm fuel ty push s)) ∧
    (∀ (vm : VMT) (endt : TType) (ty : TypeElem) (nel : Int) (push : Bool) (s : PSt), Inv s →
      presInv s (ParseElems vm fuel endt ty nel push s)) ∧
    (∀ (vm : VMT) (endt : TType) (nel : Int) (push : Bool) (ti : TypeInfo) (ss : Nat) (s : PSt),
      Inv s → presInv s (ParseElemsLoop vm fuel endt nel push ti ss s)) := by
  intro fuel
  induction fuel with
  | zero =>
    exact ⟨fun _ _ _ _ _ => trivial, fun _ _ _ _ _ _ _ => trivial,
           fun _ _ _ _ _ _ _ _ => trivial⟩
  | succ fuel ih =>
    obtain ⟨ihF, ihE, ihL⟩ := ih
    refine ⟨?_, ?_, ?_⟩
    · -- ParseFactor
      intro vm ty push s hi
      simp only [ParseFactor]
      cases htk : curTok s with
      | int i =>
        refine presInv_bind (presInv_ExpectType _ _ _ hi) fun s1 hi1 => ?_
        cases push
        · exact presInv_ok_sameCore (sameCore_advance s1) hi1
        · exact ⟨Inv_pushV hi1 (fun id h => Value.noConfusion h), List.Subset.refl _⟩
      | float f =>
        refine presInv_bind (presInv_ExpectType _ _ _ hi) fun s1 hi1 => ?_
        cases push
        · exact presInv_ok_sameCore (sameCore_advance s1) hi1
        · exact ⟨Inv_pushV hi1 (fun id h => Value.noConfusion h), List.Subset.refl _⟩
      | str strv =>
        refine presInv_bind (presInv_ExpectType _ _ _ hi) fun s1 hi1 => ?_
        cases push
        · exact presInv_ok_sameCore (sameCore_advance s1) hi1
        · exact presInv_alloc_push (.str strv) hi1
      | nilTok =>
        refine presInv_bind (presInv_ExpectType _ _ _ hi) fun s1 hi1 => ?_
        cases push
        · exact presInv_ok_sameCore (sameCore_advance s1) hi1
        · exact ⟨Inv_pushV hi1 (fun id h => Value.noConfusion h), List.Subset.refl _⟩
      | minus =>
        refine presInv_pre (sameCore_advance s)
          (presInv_bind (ihF vm ty push (advance s) hi) fun s1 hi1 => ?_)
        cases push
        · exact ⟨hi1, List.Subset.refl _⟩
        · show presInv s1 (if ty = TYPE_ELEM_INT then
              .ok { s1 with stack := mapLast setivalNeg s1.stack }
            else if ty = TYPE_ELEM_FLOAT then
              .ok { s1 with stack := mapLast setfvalNeg s1.stack }
            else .err "unary minus: numeric value expected" s1)
          split
          · exact ⟨Inv_mapLast setivalNeg_obj hi1, List.Subset.refl _⟩
          · split
            · exact ⟨Inv_mapLast setfvalNeg_obj hi1, List.Subset.refl _⟩
            · exact ⟨hi1, List.Subset.refl _⟩
      | lbracket =>
        refine presInv_bind (presInv_ExpectType _ _ _ hi) fun s1 hi1 => ?_
        exact presInv_pre (sameCore_advance s1) (ihE vm .T_RIGHTBRACKET ty (-1) push (advance s1) hi1)
      | ident name =>
        dsimp only
        split
        · cases hlk : vm.LookupEnum name (vm.GetTypeInfo ty).enumidx with
          | none => exact ⟨hi, List.Subset.refl _⟩
          | some v =>
            cases push
            · exact presInv_ok_sameCore (sameCore_advance s) hi
            · exact ⟨Inv_pushV hi (fun id h => Value.noConfusion h), List.Subset.refl _⟩
        · split
          · exact ⟨hi, List.Subset.refl _⟩
          · refine presInv_pre (sameCore_advance s)
              (presInv_bind (presInv_Expect _ _ hi) fun s1 hi1 => ?_)
            split
            · exact ⟨hi1, List.Subset.refl _⟩
            · exact ihE vm .T_RIGHTCURLY ty ((vm.GetTypeInfo ty).len : Int) push s1 hi1
      | eof => exact ⟨hi, List.Subset.refl _⟩
      | lcurly => exact ⟨hi, List.Subset.refl _⟩
      | rcurly => exact ⟨hi, List.Subset.refl _⟩
      | rbracket => exact ⟨hi, List.Subset.refl _⟩
      | comma => exact ⟨hi, List.Subset.refl _⟩
      | linefeed => exact ⟨hi, List.Subset.refl _⟩
    · -- ParseElems
      intro vm endt ty nel push s hi
      simp only [ParseElems]
      have hig : Inv (Gobble .T_LINEFEED s) :=
        Inv_of_sameCore (sameCore_Gobble .T_LINEFEED s) hi
      refine presInv_pre (sameCore_Gobble .T_LINEFEED s) (presInv_bind ?_ fun s1 hi1 => ?_)
      · split
        · exact presInv_ok_sameCore (sameCore_advance _) hig
        · exact ihL vm endt nel push (vm.GetTypeInfo ty) (Gobble .T_LINEFEED s).stack.length
            (Gobble .T_LINEFEED s) hig
      · dsimp only
        split
        · exact ⟨hi1, List.Subset.refl _⟩
        · refine presInv_bind ?_ fun s2 hi2 => ?_
          · split
            · exact presInv_PadMissing vm (vm.GetTypeInfo ty) nel.toNat
                (Gobble .T_LINEFEED s).stack.length (nel.toNat + 1) s1 hi1
            · exact ⟨hi1, List.Subset.refl _⟩
          · split
            · exact presInv_CommitClass ty _ hi2
            · split
              · exact presInv_CommitVec vm ty (vm.GetTypeInfo ty) _ hi2
              · exact ⟨hi2, List.Subset.refl _⟩
    · -- ParseElemsLoop
      intro vm endt nel push ti ss s hi
      simp only [ParseElemsLoop]
      refine presInv_bind ?_ fun s1 hi1 => ?_
      · split
        · exact ihF vm TYPE_ELEM_ANY false s hi
        · exact ihF vm _ push s hi
      · dsimp only
        cases hlf : curT s1 == .T_LINEFEED with
        | true =>
          simp only [hlf, if_true]
          split
          · exact presInv_ok_sameCore (sameCore_trans (sameCore_advance s1) (sameCore_advance _)) hi1
          · refine presInv_pre (sameCore_advance s1) (presInv_bind ?_ fun s2 hi2 => ?_)
            · exact ⟨Inv_of_sameCore (sameCore_advance s1) hi1, List.Subset.refl _⟩
            · exact ihL vm endt nel push ti ss s2 hi2
        | false =>
          simp only [hlf, Bool.false_eq_true, if_false]
          split
          · exact presInv_ok_sameCore (sameCore_advance s1) hi1
          · refine presInv_bind (presInv_Expect _ _ hi1) fun s2 hi2 => ?_
            exact ihL vm endt nel push ti ss s2 hi2

/-- The invariant is preserved by a whole top-level `Parse`, into success and
error outcomes alike. -/
theorem inv_Parse (vm : VMT) (fuel : Nat) (ty : TypeElem) (s : PSt) (hi : Inv s) :
    presInv s (Parse vm fuel ty s) := by
  unfold Parse
  refine presInv_bind ((inv_master fuel).1 vm ty true s hi) fun s1 hi1 => ?_
  exact presInv_pre (sameCore_Gobble .T_LINEFEED s1)
    (presInv_Expect .T_ENDOFFILE (Gobble .T_LINEFEED s1)
      (Inv_of_sameCore (sameCore_Gobble .T_LINEFEED s1) hi1))


/-! ### The rollback of the catch handler -/

/-- Pointwise description of the ledger rollback: each heap entry's reference
count loses one per occurrence of its id in the ledger. -/
theorem releaseAll_map (as : List Nat) : ∀ heap : List (Nat × Obj × Nat),
    releaseAll heap as = heap.map (fun e => (e.1, e.2.1, e.2.2 - as.count e.1)) := by
  induction as with
  | nil =>
    intro heap
    simp only [releaseAll, List.foldl_nil, List.count_nil, Nat.sub_zero]
    induction heap with
    | nil => rfl
    | cons e t iht => simp_all
  | cons a as ih =>
    intro heap
    have h1 : releaseAll heap (a :: as) = releaseAll (decOne heap a) as := rfl
    rw [h1, ih, decOne, List.map_map]
    apply List.map_congr_left
    intro e _
    obtain ⟨i, o, rc⟩ := e
    simp only [Function.comp_apply, List.count_cons]
    by_cases he : i = a
    · subst he
      simp only [if_pos rfl]
      simp
      omega
    · simp only [if_neg he]
      simp [he, Ne.symm he]

/-- After the rollback, every heap entry whose id the ledger records has
reference count zero; with the tracking invariant this is every entry. -/
theorem releaseAll_rc_zero {s : PSt} (hi : Inv s) :
    ∀ e ∈ releaseAll s.heap s.allocated, e.2.2 = 0 := by
  intro e he
  rw [releaseAll_map] at he
  obtain ⟨e0, he0, heq⟩ := List.mem_map.mp he
  obtain ⟨hrc, hmem⟩ := hi.1 e0 he0
  have hcnt : 0 < s.allocated.count e0.1 := List.count_pos_iff.mpr hmem
  have : e.2.2 = e0.2.2 - s.allocated.count e0.1 := by rw [← heq]
  rw [this, hrc]
  omega


/-! ### The claims -/

/-- C1: on a failed top-level parse, every heap object recorded in the
Allocation Ledger is released before the error is returned — after the catch
handler's rollback every object allocated during the call has reference count
zero; concretely, `[1, "bad", 3]` against vector-of-int fails on the second
element (type mismatch) with nothing left allocated, and `["a", "b", 3]`
against vector-of-string fails with both previously allocated strings
released to reference count zero. -/
theorem claim_C1 :
    (∀ (vm : VMT) (fuel : Nat) (ty : TypeElem) (toks : List Token) (m : String)
       (h : List (Nat × Obj × Nat)),
       ParseData vm fuel ty toks = .failure m h → ∀ e ∈ h, e.2.2 = 0) ∧
    ParseData vmC 20 5 [.lbracket, .int 1, .comma, .str "bad", .comma, .int 3, .rbracket] =
      .failure "type int required, string given" [] ∧
    ParseData vmC 20 11 [.lbracket, .str "a", .comma, .str "b", .comma, .int 3, .rbracket] =
      .failure "type string required, int given" [(0, .str "a", 0), (1, .str "b", 0)] := by
  refine ⟨?_, by decide, by decide⟩
  intro vm fuel ty toks m h hpd e he
  unfold ParseData at hpd
  cases hp : Parse vm fuel ty (initSt toks) with
  | ok s =>
    rw [hp] at hpd
    exact PDOut.noConfusion hpd
  | err m2 s =>
    rw [hp] at hpd
    have hpd2 : PDOut.failure m2 (releaseAll s.heap s.allocated) = PDOut.failure m h := hpd
    injection hpd2 with hm hh
    subst hh
    have hinv := inv_Parse vm fuel ty (initSt toks) (Inv_initSt toks)
    rw [hp] at hinv
    obtain ⟨hs, -⟩ := hinv
    exact releaseAll_rc_zero hs e he
  | fuelOut =>
    rw [hp] at hpd
    exact PDOut.noConfusion hpd

/-- Witness for C1's general part, at the vector-of-string failure. -/
theorem claim_C1_witness :
    ∀ e ∈ [((0 : Nat), Obj.str "a", (0 : Nat)), (1, Obj.str "b", 0)], e.2.2 = 0 :=
  claim_C1.1 vmC 20 11 [.lbracket, .str "a", .comma, .str "b", .comma, .int 3, .rbracket]
    "type string required, int given" [(0, .str "a", 0), (1, .str "b", 0)] (by decide)

/-- C2 counterexample: `-5` is a well-formed literal (grammar rule
`factor := "-" factor`), yet parsing it against the wildcard Any type does not
succeed: the unary-minus switch tests the type handle against the canonical
Int/Float handles, the wildcard handle is neither, and the parse fails. -/
theorem claim_C2_counterexample :
    Parse vmC 9 TYPE_ELEM_ANY (initSt [.minus, .int 5]) =
      .err "unary minus: numeric value expected" ⟨[], [.vInt 5], [], [], 0⟩ := by decide

/-- C2 (amended): for every atomic well-formed literal — an integer, float,
string, or `nil` token — parsing against the wildcard Any type of any
well-formed registry succeeds (so no type-mismatch error is possible), while
a `-`-prefixed numeric literal against Any fails with the unary-minus
error. -/
theorem claim_C2_amended :
    ∀ vm : VMT, WFVM vm →
      (∀ i : Int, Parse vm 5 TYPE_ELEM_ANY (initSt [.int i]) =
        .ok ⟨[], [.vInt i], [], [], 0⟩) ∧
      (∀ f : Rat, Parse vm 5 TYPE_ELEM_ANY (initSt [.float f]) =
        .ok ⟨[], [.vFloat f], [], [], 0⟩) ∧
      (∀ strv : String, Parse vm 5 TYPE_ELEM_ANY (initSt [.str strv]) =
        .ok ⟨[], [.obj 0], [0], [(0, .str strv, 1)], 1⟩) ∧
      (Parse vm 5 TYPE_ELEM_ANY (initSt [.nilTok]) = .ok ⟨[], [.nilv], [], [], 0⟩) ∧
      (∀ i : Int, Parse vm 5 TYPE_ELEM_ANY (initSt [.minus, .int i]) =
        .err "unary minus: numeric value expected" ⟨[], [.vInt i], [], [], 0⟩) := by
  intro vm hwf
  obtain ⟨h0, h1, h2⟩ := hwf
  have h0n : vm.GetTypeInfo 0 = ⟨.V_INT, 0, 0, [], -1, ""⟩ := h0
  have h1n : vm.GetTypeInfo 1 = ⟨.V_FLOAT, 0, 0, [], -1, ""⟩ := h1
  have h2n : vm.GetTypeInfo 2 = ⟨.V_ANY, 0, 0, [], -1, ""⟩ := h2
  refine ⟨fun i => ?_, fun f => ?_, fun strv => ?_, ?_, fun i => ?_⟩ <;>
    simp [Parse, ParseFactor, h0n, h1n, h2n, ExpectType, PRes.bind, initSt, advance, pushV,
      curTok, curT, Token.ttype, Gobble, Expect, allocRecord, mapLast, setivalNeg,
      TYPE_ELEM_ANY, TYPE_ELEM_INT, TYPE_ELEM_FLOAT]

/-- Witness for C2 (amended), at the concrete registry. -/
theorem claim_C2_witness :
    Parse vmC 5 TYPE_ELEM_ANY (initSt [.int 7]) = .ok ⟨[], [.vInt 7], [], [], 0⟩ :=
  (claim_C2_amended vmC vmC_wf).1 7

/-- C3: missing trailing slots of a fixed-arity aggregate parsed with push on
are padded by declared slot type — 0 for an Int slot, 0.0 for a Float slot,
nil for a Nil slot (`R{i}` pads a Float and a Nil slot) — `Point{i}` against
the two-int class yields `{i, 0}`, and a missing slot of any other kind
(`Q{i}` with a string second field) fails with the no-default error. -/
theorem claim_C3 :
    (∀ i : Int, Parse vmC 9 6 (initSt [.ident "Point", .lcurly, .int i, .rcurly]) =
      .ok ⟨[], [.obj 0], [0], [(0, .cls 6 [.vInt i, .vInt 0], 1)], 1⟩) ∧
    (∀ i : Int, Parse vmC 9 12 (initSt [.ident "R", .lcurly, .int i, .rcurly]) =
      .ok ⟨[], [.obj 0], [0], [(0, .cls 12 [.vInt i, .vFloat 0, .nilv], 1)], 1⟩) ∧
    (∀ i : Int, Parse vmC 9 7 (initSt [.ident "Q", .lcurly, .int i, .rcurly]) =
      .err "no default value exists for missing struct elements" ⟨[], [.vInt i], [], [], 0⟩) :=
  ⟨fun _ => rfl, fun _ => rfl, fun _ => rfl⟩

/-- C4: elements beyond a fixed-arity aggregate's declared field count are
parsed against the wildcard with push off — once the count equals the declared
arity the loop iteration is exactly a wildcard no-push parse followed by the
separator continuation, and a no-push wildcard parse that succeeds leaves
stack, ledger, heap and id supply untouched — so `Point{i,j,k}` against the
two-int class yields exactly `{i,j}`, and even an extra element that would be
ill-typed when pushed (`-"x"`) is merely syntax-checked and discarded. -/
theorem claim_C4 :
    (∀ i j k : Int, Parse vmC 9 6 (initSt
        [.ident "Point", .lcurly, .int i, .comma, .int j, .comma, .int k, .rcurly]) =
      .ok ⟨[], [.obj 0], [0], [(0, .cls 6 [.vInt i, .vInt j], 1)], 1⟩) ∧
    (Parse vmC 9 6 (initSt
        [.ident "Point", .lcurly, .int 1, .comma, .int 2, .comma, .minus, .str "x", .rcurly]) =
      .ok ⟨[], [.obj 0], [0], [(0, .cls 6 [.vInt 1, .vInt 2], 1)], 1⟩) ∧
    (∀ (vm : VMT) (fuel : Nat) (endt : TType) (nel : Int) (push : Bool) (ti : TypeInfo)
       (ss : Nat) (s : PSt),
       ((s.stack.length - ss : Nat) : Int) = nel →
       ParseElemsLoop vm (fuel + 1) endt nel push ti ss s =
         (ParseFactor vm fuel TYPE_ELEM_ANY false s).bind
           (loopCont vm fuel endt nel push ti ss)) ∧
    (∀ (vm : VMT) (fuel : Nat) (s s1 : PSt),
       ParseFactor vm fuel TYPE_ELEM_ANY false s = .ok s1 →
       s1.stack = s.stack ∧ s1.allocated = s.allocated ∧ s1.heap = s.heap ∧
       s1.nextId = s.nextId) := by
  refine ⟨fun i j k => rfl, rfl, ?_, ?_⟩
  · intro vm fuel endt nel push ti ss s hcnt
    rw [ParseElemsLoop_succ, if_pos hcnt]
  · intro vm fuel s s1 h
    have hf := (frame_master fuel).1 vm TYPE_ELEM_ANY s
    rw [h] at hf
    exact hf

/-- Witness for C4's conditional parts at concrete inputs. -/
theorem claim_C4_witness :
    (ParseElemsLoop vmC (8 + 1) .T_RIGHTCURLY 0 true ⟨.V_CLASS, 0, 0, [], -1, ""⟩ 0
        (initSt [.int 3, .rcurly]) =
      (ParseFactor vmC 8 TYPE_ELEM_ANY false (initSt [.int 3, .rcurly])).bind
        (loopCont vmC 8 .T_RIGHTCURLY 0 true ⟨.V_CLASS, 0, 0, [], -1, ""⟩ 0)) ∧
    ((⟨[.rcurly], [], [], [], 0⟩ : PSt).stack = (initSt [.minus, .str "x", .rcurly]).stack ∧
     (⟨[.rcurly], [], [], [], 0⟩ : PSt).allocated =
       (initSt [.minus, .str "x", .rcurly]).allocated ∧
     (⟨[.rcurly], [], [], [], 0⟩ : PSt).heap = (initSt [.minus, .str "x", .rcurly]).heap ∧
     (⟨[.rcurly], [], [], [], 0⟩ : PSt).nextId = (initSt [.minus, .str "x", .rcurly]).nextId) :=
  ⟨claim_C4.2.2.1 vmC 8 .T_RIGHTCURLY 0 true ⟨.V_CLASS, 0, 0, [], -1, ""⟩ 0
      (initSt [.int 3, .rcurly]) (by decide),
   claim_C4.2.2.2 vmC 9 (initSt [.minus, .str "x", .rcurly]) ⟨[.rcurly], [], [], [], 0⟩
      (by decide)⟩

/-- C5 counterexample: against an enum type handle — whose kind is Int — the
claim predicts that `-5` is negated and pushed, but the unary-minus switch
compares the handle itself with the canonical `TYPE_ELEM_INT`, so the parse
fails with the unary-minus error instead. -/
theorem claim_C5_counterexample :
    (vmC.GetTypeInfo 8).t = .V_INT ∧
    Parse vmC 9 8 (initSt [.minus, .int 5]) =
      .err "unary minus: numeric value expected" ⟨[], [.vInt 5], [], [], 0⟩ := by decide

/-- C5 (amended): in a `-`-prefixed factor parsed with push on, after the
recursive factor succeeds the result is negated in place exactly when the
expected type handle is the canonical Int handle (or, for floats, the
canonical Float handle); for any other handle — whatever its kind — the parse
fails with "unary minus: numeric value expected".  `-5` against the canonical
Int handle yields `-5`, `-2.0` against the canonical Float handle yields
`-2.0`, and `-5` against a String type fails with the type-mismatch error
before negation is attempted. -/
theorem claim_C5_amended :
    (∀ (vm : VMT) (fuel : Nat) (ty : TypeElem) (s s1 : PSt),
       curTok s = .minus →
       ParseFactor vm fuel ty true (advance s) = .ok s1 →
       ParseFactor vm (fuel + 1) ty true s =
         (if ty = TYPE_ELEM_INT then .ok { s1 with stack := mapLast setivalNeg s1.stack }
          else if ty = TYPE_ELEM_FLOAT then
            .ok { s1 with stack := mapLast setfvalNeg s1.stack }
          else .err "unary minus: numeric value expected" s1)) ∧
    Parse vmC 9 TYPE_ELEM_INT (initSt [.minus, .int 5]) = .ok ⟨[], [.vInt (-5)], [], [], 0⟩ ∧
    Parse vmC 9 TYPE_ELEM_FLOAT (initSt [.minus, .float 2]) =
      .ok ⟨[], [.vFloat (-2)], [], [], 0⟩ ∧
    Parse vmC 9 3 (initSt [.minus, .int 5]) =
      .err "type string required, int given" ⟨[.int 5], [], [], [], 0⟩ := by
  refine ⟨?_, by decide, ?_, by decide⟩
  · intro vm fuel ty s s1 hm hin
    simp [ParseFactor, hm, hin, PRes.bind]
  · show PRes.ok ⟨[], [.vFloat ((2 : Rat) * -1)], [], [], 0⟩ =
      PRes.ok ⟨[], [.vFloat (-2)], [], [], 0⟩
    norm_num

/-- Witness for C5 (amended) at `-5` against the canonical Int handle. -/
theorem claim_C5_witness :
    ParseFactor vmC (8 + 1) TYPE_ELEM_INT true (initSt [.minus, .int 5]) =
      (if TYPE_ELEM_INT = TYPE_ELEM_INT then
         PRes.ok { (⟨[], [.vInt 5], [], [], 0⟩ : PSt) with
                     stack := mapLast setivalNeg (⟨[], [.vInt 5], [], [], 0⟩ : PSt).stack }
       else if TYPE_ELEM_INT = TYPE_ELEM_FLOAT then
         PRes.ok { (⟨[], [.vInt 5], [], [], 0⟩ : PSt) with
                     stack := mapLast setfvalNeg (⟨[], [.vInt 5], [], [], 0⟩ : PSt).stack }
       else PRes.err "unary minus: numeric value expected" ⟨[], [.vInt 5], [], [], 0⟩) :=
  claim_C5_amended.1 vmC 8 TYPE_ELEM_INT (initSt [.minus, .int 5])
    ⟨[], [.vInt 5], [], [], 0⟩ rfl (by decide)

/-- C6: vector literals parsed against a vector type with push on accept
comma, line-break, or mixed separators with an optional line break before the
closing bracket; `[]` commits a 0-length vector, `[a, b, c]` against
vector-of-int commits the 3-element vector `[a,b,c]`, a vector of two 2-field
structs commits logical length 2 (4 scalars at width 2), and in general the
vector commit records logical length = scalar count / element width, where
the width is the element type's fixed-record length for struct element kinds
and 1 otherwise. -/
theorem claim_C6 :
    (∀ a b c : Int, Parse vmC 9 5 (initSt
        [.lbracket, .int a, .comma, .int b, .comma, .int c, .rbracket]) =
      .ok ⟨[], [.obj 0], [0], [(0, .vec 3 5 [.vInt a, .vInt b, .vInt c], 1)], 1⟩) ∧
    (∀ a b c : Int, Parse vmC 9 5 (initSt
        [.lbracket, .int a, .linefeed, .int b, .comma, .int c, .linefeed, .rbracket]) =
      .ok ⟨[], [.obj 0], [0], [(0, .vec 3 5 [.vInt a, .vInt b, .vInt c], 1)], 1⟩) ∧
    (Parse vmC 9 5 (initSt [.lbracket, .rbracket]) =
      .ok ⟨[], [.obj 0], [0], [(0, .vec 0 5 [], 1)], 1⟩) ∧
    (Parse vmC 20 10 (initSt [.lbracket, .ident "Point", .lcurly, .int 1, .comma, .int 2,
        .rcurly, .comma, .ident "Point", .lcurly, .int 3, .comma, .int 4, .rcurly,
        .rbracket]) =
      .ok ⟨[], [.obj 0], [0], [(0, .vec 2 10 [.vInt 1, .vInt 2, .vInt 3, .vInt 4], 1)], 1⟩) ∧
    (∀ (vm : VMT) (ty : TypeElem) (ti : TypeInfo) (ss : Nat) (s : PSt), ∃ elems : List Value,
      CommitVec vm ty ti ss s =
        { s with
            heap := s.heap ++ [(s.nextId,
              .vec ((s.stack.length - ss) /
                (if IsStruct (vm.GetTypeInfo ti.subt).t then (vm.GetTypeInfo ti.subt).len
                 else 1)) ty elems, 1)],
            allocated := s.allocated ++ [s.nextId],
            stack := s.stack.take ss ++ [.obj s.nextId],
            nextId := s.nextId + 1 }) := by
  refine ⟨fun a b c => ?_, fun a b c => ?_, by decide, by decide, ?_⟩
  · simp [Parse, ParseFactor, ParseElems, ParseElemsLoop, CommitVec, CommitClass, PadMissing,
      allocRecord, vmC, VMT.GetTypeInfo, anyTI, TypeInfo.GetElemOrParent, IsStruct, IsUDT,
      ExpectType, PRes.bind, initSt, advance, pushV, curTok, curT, Token.ttype, Gobble, Expect,
      TYPE_ELEM_ANY, TYPE_ELEM_INT, TYPE_ELEM_FLOAT]
  · simp [Parse, ParseFactor, ParseElems, ParseElemsLoop, CommitVec, CommitClass, PadMissing,
      allocRecord, vmC, VMT.GetTypeInfo, anyTI, TypeInfo.GetElemOrParent, IsStruct, IsUDT,
      ExpectType, PRes.bind, initSt, advance, pushV, curTok, curT, Token.ttype, Gobble, Expect,
      TYPE_ELEM_ANY, TYPE_ELEM_INT, TYPE_ELEM_FLOAT]
  · intro vm ty ti ss s
    exact ⟨_, rfl⟩

/-- C7: the stack-size assertion in `Parse` is not valid for every expected
type: a successful top-level parse against a two-int-field fixed struct type
leaves two values on the Value Stack, and `[]` against the wildcard Any type
succeeds leaving zero values — in both runs `assert(stack.size() == 1)` in
the source fails (and `stack.back()` is read out of bounds in the second). -/
theorem claim_C7 :
    Parse vmC 9 9 (initSt [.ident "Point", .lcurly, .int 1, .comma, .int 2, .rcurly]) =
      .ok ⟨[], [.vInt 1, .vInt 2], [], [], 0⟩ ∧
    Parse vmC 9 TYPE_ELEM_ANY (initSt [.lbracket, .rbracket]) =
      .ok ⟨[], [], [], [], 0⟩ := by decide

/-- C8: throughout a parse — starting from the fresh per-call state, which
satisfies the tracking invariant — every Object value on the Value Stack in
the resulting state (success or error alike) is recorded in the Allocation
Ledger, every heap object is recorded there with reference count 1, and the
ledger only ever grows: no allocated object escapes untracked. -/
theorem claim_C8 :
    (∀ toks : List Token, Inv (initSt toks)) ∧
    (∀ (vm : VMT) (fuel : Nat) (ty : TypeElem) (push : Bool) (s s' : PSt), Inv s →
      (ParseFactor vm fuel ty push s = .ok s' ∨
        (∃ m, ParseFactor vm fuel ty push s = .err m s')) →
      ((∀ id : Nat, Value.obj id ∈ s'.stack → id ∈ s'.allocated) ∧
       (∀ e ∈ s'.heap, e.2.2 = 1 ∧ e.1 ∈ s'.allocated) ∧
       s.allocated ⊆ s'.allocated)) := by
  refine ⟨Inv_initSt, ?_⟩
  intro vm fuel ty push s s' hi hr
  have h := (inv_master fuel).1 vm ty push s hi
  rcases hr with hr | ⟨m, hr⟩
  · rw [hr] at h
    obtain ⟨h1, h2⟩ := h
    exact ⟨h1.2, h1.1, h2⟩
  · rw [hr] at h
    obtain ⟨h1, h2⟩ := h
    exact ⟨h1.2, h1.1, h2⟩

/-- Witness for C8 at a concrete string parse that allocates. -/
theorem claim_C8_witness :
    (∀ id : Nat, Value.obj id ∈ (⟨[], [.obj 0], [0], [(0, .str "hi", 1)], 1⟩ : PSt).stack →
       id ∈ (⟨[], [.obj 0], [0], [(0, .str "hi", 1)], 1⟩ : PSt).allocated) ∧
    (∀ e ∈ (⟨[], [.obj 0], [0], [(0, .str "hi", 1)], 1⟩ : PSt).heap,
       e.2.2 = 1 ∧ e.1 ∈ (⟨[], [.obj 0], [0], [(0, .str "hi", 1)], 1⟩ : PSt).allocated) ∧
    (initSt [.str "hi"]).allocated ⊆
      (⟨[], [.obj 0], [0], [(0, .str "hi", 1)], 1⟩ : PSt).allocated :=
  claim_C8.2 vmC 9 3 true (initSt [.str "hi"]) ⟨[], [.obj 0], [0], [(0, .str "hi", 1)], 1⟩
    (Inv_initSt _) (Or.inl (by decide))

/-- C9: the top-level parse consumes one value, then an optional single
trailing line break, then requires end-of-input; after a successful factor,
the whole parse succeeds exactly when the (single-line-break-gobbled) stream
is at end-of-file, and otherwise fails with "end-of-file expected, found:
<token>" — concretely a leftover identifier or a second line break each
produce that error. -/
theorem claim_C9 :
    (∀ (vm : VMT) (fuel : Nat) (ty : TypeElem) (s s1 : PSt),
       ParseFactor vm fuel ty true s = .ok s1 →
       Parse vm fuel ty s =
         (if curT (Gobble .T_LINEFEED s1) = .T_ENDOFFILE then
            .ok (advance (Gobble .T_LINEFEED s1))
          else
            .err (tokStrT .T_ENDOFFILE ++ " expected, found: " ++
                  tokStrCur (curTok (Gobble .T_LINEFEED s1)))
              (Gobble .T_LINEFEED s1))) ∧
    (Parse vmC 9 0 (initSt [.int 5]) = .ok ⟨[], [.vInt 5], [], [], 0⟩) ∧
    (Parse vmC 9 0 (initSt [.int 5, .linefeed]) = .ok ⟨[], [.vInt 5], [], [], 0⟩) ∧
    (Parse vmC 9 0 (initSt [.int 5, .ident "x"]) =
      .err "end-of-file expected, found: x" ⟨[.ident "x"], [.vInt 5], [], [], 0⟩) ∧
    (Parse vmC 9 0 (initSt [.int 5, .linefeed, .linefeed]) =
      .err "end-of-file expected, found: linefeed" ⟨[.linefeed], [.vInt 5], [], [], 0⟩) := by
  refine ⟨?_, by decide, by decide, by decide, by decide⟩
  intro vm fuel ty s s1 h
  simp only [Parse, h, PRes.bind, Expect]

/-- Witness for C9's general part at a leftover-token run. -/
theorem claim_C9_witness :
    Parse vmC 9 0 (initSt [.int 5, .ident "x"]) =
      (if curT (Gobble .T_LINEFEED (⟨[.ident "x"], [.vInt 5], [], [], 0⟩ : PSt)) =
           .T_ENDOFFILE then
         .ok (advance (Gobble .T_LINEFEED (⟨[.ident "x"], [.vInt 5], [], [], 0⟩ : PSt)))
       else
         .err (tokStrT .T_ENDOFFILE ++ " expected, found: " ++
               tokStrCur (curTok (Gobble .T_LINEFEED (⟨[.ident "x"], [.vInt 5], [], [], 0⟩ : PSt))))
           (Gobble .T_LINEFEED (⟨[.ident "x"], [.vInt 5], [], [], 0⟩ : PSt))) :=
  claim_C9.1 vmC 9 0 (initSt [.int 5, .ident "x"]) ⟨[.ident "x"], [.vInt 5], [], [], 0⟩
    (by decide)

/-- C10: a no-push `ParseFactor` that completes without error leaves the
Value Stack, the Allocation Ledger, the heap and the id supply exactly as
they were; concretely a discarded `-"abc"` raises no unary-minus error, a
discarded string literal allocates no string object, and a discarded
aggregate (`Point{1}` against the two-int class) commits no object and
performs no default padding. -/
theorem claim_C10 :
    (∀ (vm : VMT) (fuel : Nat) (ty : TypeElem) (s s' : PSt),
       ParseFactor vm fuel ty false s = .ok s' →
       s'.stack = s.stack ∧ s'.allocated = s.allocated ∧ s'.heap = s.heap ∧
       s'.nextId = s.nextId) ∧
    (ParseFactor vmC 9 TYPE_ELEM_ANY false (initSt [.minus, .str "abc", .eof]) =
      .ok ⟨[.eof], [], [], [], 0⟩) ∧
    (ParseFactor vmC 9 3 false (initSt [.str "s"]) = .ok ⟨[], [], [], [], 0⟩) ∧
    (ParseFactor vmC 9 6 false (initSt [.ident "Point", .lcurly, .int 1, .rcurly]) =
      .ok ⟨[], [], [], [], 0⟩) := by
  refine ⟨?_, by decide, by decide, by decide⟩
  intro vm fuel ty s s' h
  have hf := (frame_master fuel).1 vm ty s
  rw [h] at hf
  exact hf

/-- Witness for C10's general part at the discarded `-"abc"`. -/
theorem claim_C10_witness :
    (⟨[.eof], [], [], [], 0⟩ : PSt).stack = (initSt [.minus, .str "abc", .eof]).stack ∧
    (⟨[.eof], [], [], [], 0⟩ : PSt).allocated = (initSt [.minus, .str "abc", .eof]).allocated ∧
    (⟨[.eof], [], [], [], 0⟩ : PSt).heap = (initSt [.minus, .str "abc", .eof]).heap ∧
    (⟨[.eof], [], [], [], 0⟩ : PSt).nextId = (initSt [.minus, .str "abc", .eof]).nextId :=
  claim_C10.1 vmC 9 TYPE_ELEM_ANY (initSt [.minus, .str "abc", .eof])
    ⟨[.eof], [], [], [], 0⟩ (by decide)

end LobsterReader
